import Mathlib

/-!
Shallow embedding of the two source files of the Mountain-Climber repository:
src/infinite_hash_table.py (class InfiniteHashTable, the trie table) and
src/double_key_table.py (class DoubleKeyTable, the composite two-level table).

Keys are Python strings; we represent a string by the list of the numeric
codes of its characters (code c = ord c), so keys are values of List Nat.
Values stored in the tables are integers, represented by Nat.

The collaborator classes (ArrayR, LinkedStack, LinearProbeTable) are imported
from the data_structures package and are not under src/; where their behaviour
matters they are modelled from the spec (sections 2, 3 and 6), and each such
definition carries a doc comment saying so.

Python object identity (the operator is) on the short interned strings used
throughout the scenarios coincides with string equality; the embedding models
the identity comparisons of the source as key equality.
-/

set_option autoImplicit false

namespace MountainClimber

/-- A key: the list of character codes of a Python string. -/
abbrev Key := List Nat

/-- The Python exception kinds observable from the two source files:
KeyError, TypeError (subscripting None, an int, or indexing a tuple with a
string), FullError from the hash-table package, and IndexError from list
indexing past the end. -/
inductive PyErr where
  | keyError
  | typeError
  | fullError
  | indexError
deriving DecidableEq

/-! ## Trie table: src/infinite_hash_table.py -/

/-- InfiniteHashTable.TABLE_SIZE. -/
def TABLE_SIZE : Nat := 27

mutual
/-- One occupied slot of a trie node: the source stores a tuple whose second
component is either a plain value (a leaf) or an ArrayR (a pointer to a child
node, tagged with the key prefix consumed so far), discriminated by
isinstance(slot[1], ArrayR). -/
inductive TSlot : Type where
  | leaf (k : Key) (v : Nat) : TSlot
  | child (pfx : Key) (sub : TNode) : TSlot

/-- A trie node: an ArrayR of TABLE_SIZE optional slots together with its
count attribute. ArrayR itself is a collaborator outside src/; Modelled from
the spec: a fixed array (section 6) carrying the per-node occupancy counter of
section 3, starting at 0. -/
inductive TNode : Type where
  | mk (slots : List (Option TSlot)) (count : Nat) : TNode
end

/-- The slots array of a node. -/
def TNode.slots : TNode → List (Option TSlot)
  | .mk s _ => s

/-- The count attribute of a node. -/
def TNode.count : TNode → Nat
  | .mk _ c => c

/-- The first component of the stored tuple: the key of a leaf, the prefix
tag of a child pointer. -/
def slotFst : TSlot → Key
  | .leaf k _ => k
  | .child p _ => p

/-- A freshly constructed ArrayR node: TABLE_SIZE empty slots, count 0. -/
def emptyNode : TNode := .mk (List.replicate TABLE_SIZE none) 0

/-- The whole-table state: the root ArrayR (self.table) and the element
counter self.count. The level attribute is transient per operation and is
threaded explicitly. -/
structure TrieState where
  table : TNode
  count : Nat

/-- The empty InfiniteHashTable produced by the constructor. -/
def emptyTrie : TrieState := ⟨emptyNode, 0⟩

/-- InfiniteHashTable.hash: ord(key[level]) mod (TABLE_SIZE - 1) while level
is below the key length, else the reserved last slot TABLE_SIZE - 1. -/
def hashAt (key : Key) (level : Nat) : Nat :=
  if level < key.length then key.getD level 0 % (TABLE_SIZE - 1) else TABLE_SIZE - 1

/-- The node a splitting insertion descends into: when the occupied slot is a
leaf, a fresh child node holding that leaf at its hash for the next level
(the source builds new_table and stores the old tuple there); when the slot
is already a child pointer, that child. -/
def splitSub : TSlot → Nat → TNode
  | .leaf k0 v0, level => .mk ((List.replicate TABLE_SIZE none).set (hashAt k0 (level + 1)) (some (.leaf k0 v0))) 1
  | .child _ t, _ => t

/-- The first tuple component written back into the occupied slot: on a split
the source stores key[:self.level] (the new prefix tag); otherwise the
existing tag is kept because the slot is not reassigned. -/
def splitPfx : TSlot → Key → Nat → Key
  | .leaf _ _, key, level => key.take (level + 1)
  | .child p _, _, _ => p

/-- The while loop of InfiniteHashTable.setitem, returning the rebuilt node.
The source loop has no key-equality check at all: any occupied slot causes a
split or a descent, so inserting a key that is already present never exits
the loop; the fuel argument returns none exactly when the source loop has not
finished within that many iterations. Every branch adds one to the count of
the node it passes (current_table.count += 1). -/
def insertLoop : Nat → TNode → Key → Nat → Nat → Option TNode
  | 0, _, _, _, _ => none
  | Nat.succ fuel, t, key, v, level =>
    let pos := hashAt key level
    match t.slots.getD pos none with
    | none => some (.mk (t.slots.set pos (some (.leaf key v))) (t.count + 1))
    | some s =>
      match insertLoop fuel (splitSub s level) key v (level + 1) with
      | none => none
      | some sub2 => some (.mk (t.slots.set pos (some (.child (splitPfx s key level) sub2))) (t.count + 1))

/-- InfiniteHashTable.setitem: run the insertion loop from the root at level
0 and add one to the global element counter. -/
def trieSet (fuel : Nat) (st : TrieState) (key : Key) (v : Nat) : Option TrieState :=
  match insertLoop fuel st.table key v 0 with
  | none => none
  | some root => some ⟨root, st.count + 1⟩

/-- The walk of InfiniteHashTable.get_location: while the slot is occupied
and its first component differs from the key, record the position and descend
into the second component; descending into a leaf value (an int) raises
KeyError via the isinstance check; the loop exit appends the final position,
which may point at an empty slot. -/
def getLocAux : Nat → TNode → Key → Nat → List Nat → Option (Except PyErr (List Nat))
  | 0, _, _, _, _ => none
  | Nat.succ fuel, t, key, level, acc =>
    let pos := hashAt key level
    match t.slots.getD pos none with
    | none => some (.ok (acc ++ [pos]))
    | some s =>
      if slotFst s = key then some (.ok (acc ++ [pos]))
      else
        match s with
        | .leaf _ _ => some (.error .keyError)
        | .child _ sub => getLocAux fuel sub key (level + 1) (acc ++ [pos])

/-- InfiniteHashTable.get_location. -/
def getLocation (fuel : Nat) (st : TrieState) (key : Key) : Option (Except PyErr (List Nat)) :=
  getLocAux fuel st.table key 0 []

/-- The current object while getitem replays a location: the root ArrayR, a
child ArrayR, or an int value. -/
inductive GetCur where
  | nodeC (t : TNode)
  | valC (v : Nat)

/-- The for loop of InfiniteHashTable.getitem: current = current[index][1]
for each recorded index. Indexing an int raises TypeError; when the slot is
None, None[1] raises TypeError. -/
def followLoc : List Nat → GetCur → Except PyErr GetCur
  | [], cur => .ok cur
  | i :: rest, cur =>
    match cur with
    | .valC _ => .error .typeError
    | .nodeC t =>
      match t.slots.getD i none with
      | none => .error .typeError
      | some (.leaf _ v) => followLoc rest (.valC v)
      | some (.child _ sub) => followLoc rest (.nodeC sub)

/-- InfiniteHashTable.getitem: get_location, then replay the indices from
the root. The result can be an int value or, for a key equal to an internal
prefix tag, an ArrayR node returned as a normal result. -/
def trieGet (fuel : Nat) (st : TrieState) (key : Key) : Option (Except PyErr GetCur) :=
  match getLocAux fuel st.table key 0 [] with
  | none => none
  | some (.error e) => some (.error e)
  | some (.ok loc) => some (followLoc loc (.nodeC st.table))

/-- InfiniteHashTable.contains: delegates to getitem catching KeyError
only; every other exception propagates. -/
def trieContains (fuel : Nat) (st : TrieState) (key : Key) : Option (Except PyErr Bool) :=
  match trieGet fuel st key with
  | none => none
  | some (.error .keyError) => some (.ok false)
  | some (.error e) => some (.error e)
  | some (.ok _) => some (.ok true)

/-- One stack frame of InfiniteHashTable.delitem: a node pushed on the
LinkedStack while the walk passed through it. The count field is already
decremented (current_table.count -= 1 happens as the node is passed); slots
still holds the original child pointer at index pos with prefix tag pfx;
level is the depth of this node. The LinkedStack collaborator is outside
src/; Modelled from the spec: a LIFO stack (section 6), here the frame list
with the deepest node first. -/
structure DFrame where
  slots : List (Option TSlot)
  cnt : Nat
  pos : Nat
  pfx : Key
  level : Nat

/-- Rebuild the root from a frame list: each frame re-wraps the current node
through its child pointer (in the source this is implicit, the parent still
references the mutated child object). -/
def rebuildFrames : List DFrame → TNode → TNode
  | [], cur => cur
  | f :: rest, cur => rebuildFrames rest (.mk (f.slots.set f.pos (some (.child f.pfx cur))) f.cnt)

/-- The walk of InfiniteHashTable.delitem: while slot[0] differs from the
key, decrement the count of the current node, push it, and descend into
slot[1]. An empty slot raises TypeError (None subscripted) before any change
to the current node; a mismatching leaf raises TypeError one step later (its
int value is subscripted by the loop condition) after the current node has
been decremented. On success returns the frames, the node holding the
matching slot, its position and its depth. Note the walk stops on any slot
whose first component equals the key, including a child pointer whose prefix
tag equals it. -/
def delWalkAux : Nat → TNode → Key → Nat → List DFrame →
    Option ((PyErr × List DFrame × TNode) ⊕ (List DFrame × TNode × Nat × Nat))
  | 0, _, _, _, _ => none
  | Nat.succ fuel, t, key, level, frames =>
    let pos := hashAt key level
    match t.slots.getD pos none with
    | none => some (.inl (.typeError, frames, t))
    | some s =>
      if slotFst s = key then some (.inr (frames, t, pos, level))
      else
        match s with
        | .leaf _ _ => some (.inl (.typeError, frames, .mk t.slots (t.count - 1)))
        | .child p sub =>
          delWalkAux fuel sub key (level + 1) (⟨t.slots, t.count - 1, pos, p, level⟩ :: frames)

/-- The first non-empty slot of a node, in index order: the item the delete
scans for after clearing the target slot. -/
def firstSome : List (Option TSlot) → Option TSlot
  | [] => none
  | none :: rest => firstSome rest
  | some s :: _ => some s

/-- The collapse loop of InfiniteHashTable.delitem: while the count of the
current node is 1 and the stack is not empty, pop the parent and write item
into it at the hash of the item key for the parent level. If item is None
(the cleared node had no remaining slot) evaluating item[0] raises TypeError
after the pop. The parent always still references the current node through
its original slot, so each rebuild re-wraps it before the item write. -/
def collapseLoop : List DFrame → TNode → Option TSlot → Option PyErr × TNode
  | [], cur, _ => (none, cur)
  | f :: rest, cur, item =>
    if cur.count = 1 then
      match item with
      | none => (some .typeError, rebuildFrames rest (.mk (f.slots.set f.pos (some (.child f.pfx cur))) f.cnt))
      | some it =>
        collapseLoop rest
          (.mk ((f.slots.set f.pos (some (.child f.pfx cur))).set (hashAt (slotFst it) f.level) (some it)) f.cnt)
          (some it)
    else (none, rebuildFrames (f :: rest) cur)

/-- InfiniteHashTable.delitem: walk to the matching slot, clear it and
decrement that node count, scan for the first remaining item, run the
collapse loop, and finally decrement the global counter (only reached when no
exception was raised). The state component of the result reflects every
mutation performed before an exception, as in the source. -/
def trieDelete (fuel : Nat) (st : TrieState) (key : Key) : Option (Option PyErr × TrieState) :=
  match delWalkAux fuel st.table key 0 [] with
  | none => none
  | some (.inl (e, frames, cur)) => some (some e, ⟨rebuildFrames frames cur, st.count⟩)
  | some (.inr (frames, t, pos, _)) =>
    let t1 : TNode := .mk (t.slots.set pos none) (t.count - 1)
    let item := firstSome t1.slots
    match collapseLoop frames t1 item with
    | (some e, root) => some (some e, ⟨root, st.count⟩)
    | (none, root) => some (none, ⟨root, st.count - 1⟩)

mutual
/-- Number of key-value entries in the whole subtree of a node. -/
def nodeEntries : TNode → Nat
  | .mk slots _ => slotsEntries slots
termination_by structural t => t

/-- Number of key-value entries stored in a list of slots, counting through
child nodes. -/
def slotsEntries : List (Option TSlot) → Nat
  | [] => 0
  | s :: rest => slotEntriesOne s + slotsEntries rest
termination_by structural l => l

/-- Entry count of a single optional slot. -/
def slotEntriesOne : Option TSlot → Nat
  | none => 0
  | some (.leaf _ _) => 1
  | some (.child _ t) => nodeEntries t
termination_by structural s => s
end

/-- Number of non-empty slots of a node (what the spec calls the occupancy). -/
def occupiedSlots (t : TNode) : Nat :=
  t.slots.foldl (fun n s => n + (if s.isSome then 1 else 0)) 0

/-! ## Composite table: src/double_key_table.py -/

/-- DoubleKeyTable.TABLE_SIZES, the fixed default capacity sequence; also the
default sequence of the nested single-key collaborator. -/
def defaultSizes : List Nat :=
  [5, 13, 29, 53, 97, 193, 389, 769, 1543, 3079, 6151, 12289, 24593, 49157,
   98317, 196613, 393241, 786433, 1572869]

/-- DoubleKeyTable.HASH_BASE. -/
def HASH_BASE : Nat := 31

/-- The polynomial rolling hash shared by hash1 and hash2, parameterized by
the relevant capacity: value = (ord c + a * value) mod cap with
a = a * 31 mod (cap - 1), starting from value 0, a 31415. -/
def hashPoly (key : Key) (cap : Nat) : Nat :=
  (key.foldl (fun p c => ((c + p.2 * p.1) % cap, p.2 * HASH_BASE % (cap - 1))) (0, 31415)).1

/-- The nested single-key open-addressing table (data_structures.hash_table.
LinearProbeTable), a collaborator outside src/. Modelled from the spec:
constructible with a capacity sequence, exposing table_size, len, the raw
slot array and a probing entrypoint (sections 2, 6); its hash is rebound by
the composite table to the rolling hash parameterized by its own current
capacity (section 4.1). -/
structure LPT where
  sizes : List Nat
  sizeIndex : Nat
  array : List (Option (Key × Nat))
  count : Nat
deriving DecidableEq

/-- The current capacity of a nested table (the length of its slot array). -/
def LPT.tableSize (t : LPT) : Nat := t.array.length

/-- A fresh LinearProbeTable over the given capacity sequence (the default
sequence when the composite table was built with internal_sizes None). -/
def lptNew (sizes : Option (List Nat)) : LPT :=
  let s := sizes.getD defaultSizes
  ⟨s, 0, List.replicate (s.getD 0 0) none, 0⟩

/-- Modelled from the spec: the linear probe of the nested table (section
4.1 step pattern): from the rolling hash of the key, step +1 mod capacity up
to once around; an empty slot yields the position when inserting and
KeyError otherwise; a matching key yields its position; a full cycle yields
FullError when inserting and KeyError otherwise. -/
def lptProbeAux : Nat → LPT → Key → Bool → Nat → Except PyErr Nat
  | 0, _, _, isInsert, _ => .error (if isInsert then .fullError else .keyError)
  | Nat.succ n, t, key, isInsert, pos =>
    match t.array.getD pos none with
    | none => if isInsert then .ok pos else .error .keyError
    | some (k, _) => if k = key then .ok pos else lptProbeAux n t key isInsert ((pos + 1) % t.tableSize)

/-- The probing entrypoint of the nested table. -/
def lptProbe (t : LPT) (key : Key) (isInsert : Bool) : Except PyErr Nat :=
  lptProbeAux t.tableSize t key isInsert (hashPoly key t.tableSize)

/-- Modelled from the spec: place a pair at its probed position, counting it
only when the slot was empty. -/
def lptPlace (t : LPT) (key : Key) (v : Nat) : Except PyErr LPT :=
  match lptProbe t key true with
  | .error e => .error e
  | .ok pos =>
    let isNew := (t.array.getD pos none).isNone
    .ok { t with array := t.array.set pos (some (key, v)),
                 count := t.count + (if isNew then 1 else 0) }

/-- Modelled from the spec: growth of the nested table, its own
responsibility (section 4.1): advance its capacity sequence one step,
allocate a fresh array of the next capacity and reinsert every stored pair
under the rolling hash of the new capacity. -/
def lptRehash (t : LPT) : Except PyErr LPT :=
  let si := t.sizeIndex + 1
  if si = t.sizes.length then .ok { t with sizeIndex := si }
  else
    match t.sizes.get? si with
    | none => .error .indexError
    | some cap =>
      t.array.foldl (fun acc slot =>
        match acc, slot with
        | .error e, _ => .error e
        | .ok u, none => .ok u
        | .ok u, some (k, v) => lptPlace u k v)
        (.ok (⟨t.sizes, si, List.replicate cap none, 0⟩ : LPT))

/-- Modelled from the spec: setitem of the nested table: place the pair,
then grow once the count exceeds half the capacity. -/
def lptSet (t : LPT) (key : Key) (v : Nat) : Except PyErr LPT :=
  match lptPlace t key v with
  | .error e => .error e
  | .ok u => if 2 * u.count > u.tableSize then lptRehash u else .ok u

/-- Modelled from the spec: the cluster repair walk of the nested table
after a deletion: from the freed slot, take out each following occupied
entry and re-place it through the insert probe, until an empty slot is
reached (bounded by the capacity). -/
def lptDelAux : Nat → LPT → Nat → LPT
  | 0, t, _ => t
  | Nat.succ n, t, pos =>
    match t.array.getD pos none with
    | none => t
    | some (k, v) =>
      let t1 : LPT := { t with array := t.array.set pos none }
      let t2 : LPT :=
        match lptProbe t1 k true with
        | .ok p => { t1 with array := t1.array.set p (some (k, v)) }
        | .error _ => t1
      lptDelAux n t2 ((pos + 1) % t.tableSize)

/-- Modelled from the spec: delitem of the nested table: probe for the key,
clear its slot, decrement the count, then repair the cluster after it. -/
def lptDel (t : LPT) (key : Key) : Except PyErr LPT :=
  match lptProbe t key false with
  | .error e => .error e
  | .ok pos =>
    let t1 : LPT := { t with array := t.array.set pos none, count := t.count - 1 }
    .ok (lptDelAux t1.tableSize t1 ((pos + 1) % t1.tableSize))

/-- Modelled from the spec: the keys of the nested table in slot order. -/
def lptKeys (t : LPT) : List Key :=
  t.array.foldr (fun s acc => match s with | none => acc | some (k, _) => k :: acc) []

/-- The state of a DoubleKeyTable: the capacity sequence (TABLE_SIZES,
possibly overridden at construction), the internal_sizes argument kept for
nested-table creation, size_index, count, and the top level array whose
occupied slots hold (key1, nested table). -/
structure DKT where
  sizes : List Nat
  internalSizes : Option (List Nat)
  sizeIndex : Nat
  count : Nat
  topLevelArray : List (Option (Key × LPT))
deriving DecidableEq

/-- DoubleKeyTable constructor. -/
def dkNew (sizes internalSizes : Option (List Nat)) : DKT :=
  let s := sizes.getD defaultSizes
  ⟨s, internalSizes, 0, 0, List.replicate (s.getD 0 0) none⟩

/-- DoubleKeyTable.table_size (the length of the top level array). -/
def DKT.tableSize (t : DKT) : Nat := t.topLevelArray.length

/-- DoubleKeyTable.len (the count of occupied outer slots). -/
def dkLen (t : DKT) : Nat := t.count

/-- The loop of DoubleKeyTable.linear_probe: from hash1(key1), step +1 mod
the outer capacity for at most table_size iterations. An empty outer slot
creates a fresh nested table bound to the rolling hash of its own capacity,
occupies the slot, increments the outer count and returns the hash of key2
in it when inserting, and raises KeyError otherwise; a slot holding key1
delegates to the nested probing for key2 (whose KeyError or FullError
propagates); a full cycle raises FullError when inserting, else KeyError.
The returned table carries the mutation of the insert-on-empty branch; in
every error branch the table is unchanged. -/
def dkProbeAux : Nat → DKT → Key → Key → Bool → Nat → Except PyErr (Nat × Nat) × DKT
  | 0, t, _, _, isInsert, _ => (.error (if isInsert then .fullError else .keyError), t)
  | Nat.succ n, t, k1, k2, isInsert, pos =>
    match t.topLevelArray.getD pos none with
    | none =>
      if isInsert then
        let nt := lptNew t.internalSizes
        ((.ok (pos, hashPoly k2 nt.tableSize)),
         { t with topLevelArray := t.topLevelArray.set pos (some (k1, nt)), count := t.count + 1 })
      else (.error .keyError, t)
    | some (k, sub) =>
      if k = k1 then
        match lptProbe sub k2 isInsert with
        | .ok ip => (.ok (pos, ip), t)
        | .error e => (.error e, t)
      else dkProbeAux n t k1 k2 isInsert ((pos + 1) % t.tableSize)

/-- DoubleKeyTable.linear_probe. -/
def dkProbe (t : DKT) (k1 k2 : Key) (isInsert : Bool) : Except PyErr (Nat × Nat) × DKT :=
  dkProbeAux t.tableSize t k1 k2 isInsert (hashPoly k1 t.tableSize)

/-- DoubleKeyTable.getitem: after a successful no-insert probe the source
evaluates self.top_level_array[key1_position][key[1]], indexing the
(key1, nested table) tuple with the string key2, which raises TypeError; so
a present pair never yields its value, while the probe errors of an absent
pair propagate unchanged. -/
def dkGet (t : DKT) (k1 k2 : Key) : Except PyErr Nat :=
  match (dkProbe t k1 k2 false).1 with
  | .error e => .error e
  | .ok _ => .error .typeError

/-- DoubleKeyTable.contains: delegates to getitem catching KeyError only. -/
def dkContains (t : DKT) (k1 k2 : Key) : Except PyErr Bool :=
  match dkGet t k1 k2 with
  | .error .keyError => .ok false
  | .error e => .error e
  | .ok _ => .ok true

/-- Reinsert a list of (key1, key2, value) triples through the given setter,
stopping at the first exception (used by the rehash and the deletion cluster
walk, both of which re-feed pairs through the normal set path). -/
def dkReinsertPairs (setter : DKT → Key → Key → Nat → Option (Except PyErr DKT))
    (t : DKT) (pairs : List (Key × Key × Nat)) : Option (Except PyErr DKT) :=
  pairs.foldl (fun acc p =>
    match acc with
    | none => none
    | some (.error e) => some (.error e)
    | some (.ok u) => setter u p.1 p.2.1 p.2.2) (some (.ok t))

/-- The (key1, key2, value) triples of one outer slot, in inner slot order. -/
def dkPairsOfSlot : Option (Key × LPT) → List (Key × Key × Nat)
  | none => []
  | some (k1, sub) =>
    sub.array.foldr (fun s acc => match s with
      | none => acc
      | some (k2, v) => (k1, k2, v) :: acc) []

/-- DoubleKeyTable.rehash: advance size_index first; if it now equals the
length of the capacity sequence return silently (leaving the incremented
index behind); otherwise index the sequence, which raises IndexError when
the index is already past the end, else allocate the next capacity, reset
the count and reinsert every stored triple through the given setter. -/
def dkRehashWith (setter : DKT → Key → Key → Nat → Option (Except PyErr DKT))
    (t : DKT) : Option (Except PyErr DKT) :=
  let si := t.sizeIndex + 1
  if si = t.sizes.length then some (.ok { t with sizeIndex := si })
  else
    match t.sizes.get? si with
    | none => some (.error .indexError)
    | some cap =>
      dkReinsertPairs setter
        { t with sizeIndex := si, count := 0, topLevelArray := List.replicate cap none }
        ((t.topLevelArray.map dkPairsOfSlot).flatten)

/-- DoubleKeyTable.setitem: probe with insertion, write the value into the
nested table of the outer slot (the guard on its key1 always holds after the
probe), then rehash once the outer count exceeds half the outer capacity.
The fuel bounds the rehash recursion (reinsertion goes through setitem
itself); none marks a recursion the source would not complete. -/
def dkSet : Nat → DKT → Key → Key → Nat → Option (Except PyErr DKT)
  | 0, _, _, _, _ => none
  | Nat.succ fuel, t, k1, k2, v =>
    match dkProbe t k1 k2 true with
    | (.error e, _) => some (.error e)
    | (.ok (p1, _), t1) =>
      match t1.topLevelArray.getD p1 none with
      | none => some (.ok t1)
      | some (k, sub) =>
        if k = k1 then
          match lptSet sub k2 v with
          | .error e => some (.error e)
          | .ok sub2 =>
            let t2 : DKT := { t1 with topLevelArray := t1.topLevelArray.set p1 (some (k, sub2)) }
            if 2 * t2.count > t2.tableSize then dkRehashWith (dkSet fuel) t2 else some (.ok t2)
        else
          if 2 * t1.count > t1.tableSize then dkRehashWith (dkSet fuel) t1 else some (.ok t1)

/-- The cluster walk of DoubleKeyTable.delitem after an outer slot was
cleared: while the next slot is occupied, reinsert each of its pairs through
the normal set path and advance; the freed slot itself is never cleared of
the entries being reinserted, the walk only reads them. The fuel bounds the
walk, which the source does not bound. -/
def dkClusterWalk (setter : DKT → Key → Key → Nat → Option (Except PyErr DKT)) :
    Nat → DKT → Nat → Option (Except PyErr DKT)
  | 0, _, _ => none
  | Nat.succ n, t, pos =>
    match t.topLevelArray.getD pos none with
    | none => some (.ok t)
    | some sl =>
      match dkReinsertPairs setter t (dkPairsOfSlot (some sl)) with
      | none => none
      | some (.error e) => some (.error e)
      | some (.ok t2) => dkClusterWalk setter n t2 ((pos + 1) % t2.tableSize)

/-- DoubleKeyTable.delitem: probe without insertion, delete key2 from the
nested table; when that table becomes empty, clear the outer slot, decrement
the outer count and run the cluster walk from the following slot. -/
def dkDel (fuel : Nat) (t : DKT) (k1 k2 : Key) : Option (Except PyErr DKT) :=
  match (dkProbe t k1 k2 false).1 with
  | .error e => some (.error e)
  | .ok (p1, _) =>
    match t.topLevelArray.getD p1 none with
    | none => some (.ok t)
    | some (k, sub) =>
      match lptDel sub k2 with
      | .error e => some (.error e)
      | .ok sub2 =>
        if sub2.count = 0 then
          let t1 : DKT := { t with topLevelArray := t.topLevelArray.set p1 none, count := t.count - 1 }
          dkClusterWalk (dkSet fuel) fuel t1 ((p1 + 1) % t1.tableSize)
        else
          some (.ok { t with topLevelArray := t.topLevelArray.set p1 (some (k, sub2)) })

/-- DoubleKeyTable.keys with no argument: the key1 of every occupied outer
slot, in slot order. -/
def dkKeysTop (t : DKT) : List Key :=
  t.topLevelArray.foldr (fun s acc => match s with | none => acc | some (k, _) => k :: acc) []

/-- DoubleKeyTable.keys with a key1 argument: the keys of the nested table
of the first outer slot holding key1; the source returns None when no slot
matches. -/
def dkKeysInner : List (Option (Key × LPT)) → Key → Option (List Key)
  | [], _ => none
  | none :: rest, key => dkKeysInner rest key
  | some (k, sub) :: rest, key => if k = key then some (lptKeys sub) else dkKeysInner rest key

/-! ## Invariant machinery for the trie counters -/

mutual
/-- The structural invariant of a trie node: TABLE_SIZE slots, counter equal
to the number of entries in the entire subtree, recursively in every child. -/
def nodeInv : TNode → Bool
  | .mk slots c => (slots.length == TABLE_SIZE) && (c == slotsEntries slots) && slotsInv slots
termination_by structural t => t

/-- nodeInv over a slot list. -/
def slotsInv : List (Option TSlot) → Bool
  | [] => true
  | s :: rest => slotInvOne s && slotsInv rest
termination_by structural l => l

/-- nodeInv of the child behind one optional slot. -/
def slotInvOne : Option TSlot → Bool
  | none => true
  | some (.leaf _ _) => true
  | some (.child _ t) => nodeInv t
termination_by structural s => s
end

/-- Run a sequence of insertions through setitem, propagating divergence. -/
def runSets (fuel : Nat) : List (Key × Nat) → TrieState → Option TrieState
  | [], s => some s
  | (k, v) :: rest, s =>
    match trieSet fuel s k v with
    | none => none
    | some s2 => runSets fuel rest s2

/-- The node the collapse loop produces when every popped ancestor has
counter 1: each ancestor re-wraps the current node through its original slot
and then receives the item at the hash of the item key for its level. -/
def collapsedRoot : List DFrame → TSlot → TNode → TNode
  | [], _, cur => cur
  | f :: rest, it, cur =>
    collapsedRoot rest it
      (.mk ((f.slots.set f.pos (some (.child f.pfx cur))).set (hashAt (slotFst it) f.level) (some it)) f.cnt)

/-! ## Concrete scenario states -/

/-- Key of the string lin. -/
def kLin : Key := [108, 105, 110]

/-- Key of the string lim. -/
def kLim : Key := [108, 105, 109]

/-- Key of the string li. -/
def kLi : Key := [108, 105]

/-- Key of the string la. -/
def kLa : Key := [108, 97]

/-- Key of the string a. -/
def kA : Key := [97]

/-- Key of the string b. -/
def kB : Key := [98]

/-- Key of the string c. -/
def kC : Key := [99]

/-- Key of the string f (whose code 102 collides with a modulo the default
outer capacity 5). -/
def kF : Key := [102]

/-- Key of the string x. -/
def kX : Key := [120]

/-- Key of the string y. -/
def kY : Key := [121]

/-- Key of the string ab. -/
def kAb : Key := [97, 98]

/-- Key of the string ay. -/
def kAy : Key := [97, 121]

/-- Sequencing helper for composite-table results: propagate divergence and
exceptions, otherwise feed the table to the next operation. -/
def obind (x : Option (Except PyErr DKT)) (f : DKT → Option (Except PyErr DKT)) :
    Option (Except PyErr DKT) :=
  match x with
  | none => none
  | some (.error e) => some (.error e)
  | some (.ok t) => f t

/-- Trie state after inserting lin mapped to 1 and lim mapped to 2 (the two
insertions of Scenario B). -/
def sB2 : Option TrieState :=
  (trieSet 9 emptyTrie kLin 1).bind (fun s => trieSet 9 s kLim 2)

/-- The depth-2 node of the Scenario B trie: lin at slot 6, lim at slot 5. -/
def tB2 : TNode :=
  .mk (((List.replicate TABLE_SIZE (none : Option TSlot)).set 6
         (some (.leaf kLin 1))).set 5 (some (.leaf kLim 2))) 2

/-- The depth-1 node of the Scenario B trie: the child for prefix li at
slot 1. -/
def tB1 : TNode :=
  .mk ((List.replicate TABLE_SIZE (none : Option TSlot)).set 1
        (some (.child kLi tB2))) 2

/-- The full Scenario B state: the root holds the child for prefix l at
slot 4; every counter equals the number of entries beneath its node. -/
def sB2val : TrieState :=
  ⟨.mk ((List.replicate TABLE_SIZE (none : Option TSlot)).set 4
         (some (.child [108] tB1))) 2, 2⟩

/-- Scenario B after deleting lin. -/
def sBdel : Option (Option PyErr × TrieState) :=
  sB2.bind (fun s => trieDelete 9 s kLin)

/-- The state Scenario B ends in: the surviving lim leaf relocated directly
into root slot 4 (the shallowest possible node), both intermediate nodes
discarded. -/
def sBdelVal : TrieState :=
  ⟨.mk ((List.replicate TABLE_SIZE (none : Option TSlot)).set 4
         (some (.leaf kLim 2))) 1, 1⟩

/-- Trie state after inserting lin, lim, li and la in that order. -/
def sC7 : Option TrieState :=
  ((sB2.bind (fun s => trieSet 9 s kLi 3)).bind (fun s => trieSet 9 s kLa 4))

/-- The previous state after deleting li: the walk stops at the depth-1
child slot whose prefix tag equals li and clears the whole subtree below it. -/
def sC7del : Option (Option PyErr × TrieState) :=
  sC7.bind (fun s => trieDelete 9 s kLi)

/-- Trie state after the single insertion of a mapped to 1 (leaf at root
slot 19). -/
def c3s : TrieState :=
  ⟨.mk ((List.replicate TABLE_SIZE (none : Option TSlot)).set 19
         (some (.leaf kA 1))) 1, 1⟩

/-- The self-similar node the duplicate insertion keeps rebuilding: the old
leaf for a parked at the reserved slot 26, counter 1. -/
def c3chain : TNode :=
  .mk ((List.replicate TABLE_SIZE (none : Option TSlot)).set 26
        (some (.leaf kA 1))) 1

/-- Trie state after inserting ab mapped to 1 (leaf at root slot 19). -/
def c10sVal : TrieState :=
  ⟨.mk ((List.replicate TABLE_SIZE (none : Option TSlot)).set 19
         (some (.leaf kAb 1))) 1, 1⟩

/-- The state the failed delete of ay leaves behind: the leaf for ab is
untouched but the root counter was already decremented to 0 when the
TypeError was raised. -/
def c10afterVal : TrieState :=
  ⟨.mk ((List.replicate TABLE_SIZE (none : Option TSlot)).set 19
         (some (.leaf kAb 1))) 0, 1⟩

/-- Composite table after the three insertions of Scenario A on the default
capacity sequence. -/
def scA3 : Option (Except PyErr DKT) :=
  obind (obind (dkSet 9 (dkNew none none) kA kX 1)
    (fun t => dkSet 9 t kA kY 2)) (fun t => dkSet 9 t kB kX 3)

/-- Scenario A after deleting the pair (a, x). -/
def scAdel : Option (Except PyErr DKT) :=
  obind scA3 (fun t => dkDel 9 t kA kX)

/-- Composite table after inserting (a,x), (b,x), (c,x): the third insertion
pushes the outer count to 3 which exceeds half of the initial capacity 5 and
triggers growth to the next capacity 13. -/
def c4res : Option (Except PyErr DKT) :=
  obind (obind (dkSet 9 (dkNew none none) kA kX 1)
    (fun t => dkSet 9 t kB kX 2)) (fun t => dkSet 9 t kC kX 3)

/-- Composite table built with the one-element capacity sequence [3], after
inserting (a,x) and (b,x): the second insertion triggers a growth attempt
that finds the sequence exhausted and is skipped silently, leaving
size_index incremented to 1. -/
def c5s2 : Option (Except PyErr DKT) :=
  obind (dkSet 9 (dkNew (some [3]) none) kA kX 1) (fun t => dkSet 9 t kB kX 2)

/-- The same table after a third insertion (c,x): its growth attempt
increments size_index to 2, slips past the equality check against the
sequence length 1, and indexes past the end of the sequence. -/
def c5s3 : Option (Except PyErr DKT) :=
  obind c5s2 (fun t => dkSet 9 t kC kX 3)

/-- Composite table after inserting (a,x) and (f,x): both outer keys hash to
slot 2 of the capacity-5 table, so f is displaced to slot 3. -/
def c8s : Option (Except PyErr DKT) :=
  obind (dkSet 9 (dkNew none none) kA kX 1) (fun t => dkSet 9 t kF kX 3)

/-- The same table after deleting (a, x): the nested table of a becomes
empty, slot 2 is cleared, and the cluster walk re-feeds the pair of f
through the normal set path, which lands in the freed slot 2 while slot 3 is
never cleared. -/
def c8del : Option (Except PyErr DKT) :=
  obind c8s (fun t => dkDel 9 t kA kX)

/-- A one-frame ancestor stack used to witness the collapse propagation:
an empty parent at level 0 whose slot 4 pointed at the child being
collapsed, counter already decremented to 1. -/
def frameEx : DFrame := ⟨List.replicate TABLE_SIZE none, 1, 4, [108], 0⟩

/-- A child node holding the single remaining leaf at the reserved slot,
counter 1. -/
def curEx : TNode :=
  .mk ((List.replicate TABLE_SIZE (none : Option TSlot)).set 26
        (some (.leaf [108] 7))) 1

/-- The single remaining leaf of curEx. -/
def itEx : TSlot := .leaf [108] 7

/-! ## Theorems -/

/-- C1: the claim states that after set(k, v) with no intervening delete,
get(k) returns v in both tables. The trie table does round-trip (second
conjunct), but in the composite table getitem indexes the outer slot tuple
(key1, nested_table) with the string key2, so the very first get after a set
raises TypeError instead of returning 1 (first conjunct): the code contradicts
its own docstring, which promises the value and a KeyError only for absent
keys. -/
theorem claim1_roundtrip_broken :
    (dkSet 9 (dkNew none none) kA kX 1).map (fun r => r.map (fun t => dkGet t kA kX))
      = some (.ok (.error .typeError)) ∧
    (trieSet 9 emptyTrie kLin 1).bind (fun s => trieGet 9 s kLin)
      = some (.ok (.valC 1)) := by
  exact ⟨rfl, rfl⟩

/-- C2: Scenario A on the composite table. Before the delete the outer keys
are a, b and the inner keys for a are x, y as claimed; deleting (a, x) keeps
the sibling (a, y) stored and get((a, x)) raises KeyError as claimed; but
get((a, y)) raises TypeError instead of returning 2, because getitem indexes
the outer slot tuple with key2. -/
theorem claim2_scenarioA :
    scA3.map (fun r => r.map dkKeysTop) = some (.ok [kA, kB]) ∧
    scA3.map (fun r => r.map (fun t => dkKeysInner t.topLevelArray kA))
      = some (.ok (some [kX, kY])) ∧
    scAdel.map (fun r => r.map (fun t => dkKeysInner t.topLevelArray kA))
      = some (.ok (some [kY])) ∧
    scAdel.map (fun r => r.map (fun t => dkGet t kA kY))
      = some (.ok (.error .typeError)) ∧
    scAdel.map (fun r => r.map (fun t => dkGet t kA kX))
      = some (.ok (.error .keyError)) := by
  exact ⟨rfl, rfl, rfl, rfl, rfl⟩

/-- C4: inserting (a,x), (b,x), (c,x) drives the outer count to 3 > 5 / 2,
and the table does adopt the next capacity 13 of the fixed sequence (first
two conjuncts, confirming the growth half of the claim); but no previously
inserted triple is retrievable afterwards: get raises TypeError on every one
of them because getitem indexes the outer slot tuple with key2. -/
theorem claim4_growth_not_retrievable :
    c4res.map (fun r => r.map (fun t => t.tableSize)) = some (.ok 13) ∧
    c4res.map (fun r => r.map (fun t => t.sizeIndex)) = some (.ok 1) ∧
    c4res.map (fun r => r.map (fun t => dkLen t)) = some (.ok 3) ∧
    c4res.map (fun r => r.map (fun t =>
      (dkGet t kA kX, dkGet t kB kX, dkGet t kC kX)))
      = some (.ok (.error .typeError, .error .typeError, .error .typeError)) := by
  exact ⟨rfl, rfl, rfl, rfl⟩

/-- C5: with the capacity sequence [3], the first growth attempt (after the
second insertion) finds the sequence exhausted and is skipped silently as
claimed, but it leaves size_index incremented to the sequence length; the
growth attempt of the very next triggering set increments size_index again,
slips past the equality test against the length, and raises IndexError from
indexing the sequence, so the set does not complete silently. -/
theorem claim5_second_exhausted_growth_raises :
    c5s2.map (fun r => r.map (fun t => (t.tableSize, t.sizeIndex, dkLen t)))
      = some (.ok (3, 1, 2)) ∧
    c5s3 = some (.error .indexError) := by
  exact ⟨rfl, rfl⟩

/-- C6: the claim states that every read or delete of an absent key fails
with KeyError. In the trie table a get whose walk ends at an empty root slot
raises TypeError (getitem subscripts None), the membership test propagates
that TypeError instead of returning false, a delete on the empty table
raises TypeError (the walk condition subscripts None), a delete whose walk
reaches a leaf with a different key raises TypeError (the loop condition
subscripts the int value), and a get of an absent key equal to an internal
prefix tag returns the internal ArrayR node as a normal result. -/
theorem claim6_absent_key_errors :
    trieGet 9 emptyTrie kA = some (.error .typeError) ∧
    trieContains 9 emptyTrie kA = some (.error .typeError) ∧
    (trieDelete 9 emptyTrie kA).map (fun p => p.1) = some (some .typeError) ∧
    ((trieSet 9 emptyTrie kAb 1).bind (fun s => trieDelete 9 s kAy)).map (fun p => p.1)
      = some (some .typeError) ∧
    sB2.bind (fun s => trieGet 9 s [108]) = some (.ok (.nodeC tB1)) := by
  exact ⟨rfl, rfl, rfl, rfl, rfl⟩

/-- C8: the claim states len() always equals the number of live keys, with
no double counting. Insert (a,x) and (f,x) (both outer keys hash to slot 2
of the capacity-5 table, so f is displaced to slot 3), then delete (a,x):
the cluster walk re-feeds the pair of f through the normal set path, which
recreates f in the freed slot 2 without ever clearing slot 3, so afterwards
len() is 2 while only one distinct outer key f is live, occupying two outer
slots at once. -/
theorem claim8_len_double_counts :
    c8del.map (fun r => r.map (fun t => dkLen t)) = some (.ok 2) ∧
    c8del.map (fun r => r.map dkKeysTop) = some (.ok [kF, kF]) ∧
    c8del.map (fun r => r.map (fun t => (dkKeysTop t).dedup)) = some (.ok [kF]) := by
  exact ⟨rfl, rfl, rfl⟩

/-- C10: the claim states a failing operation mutates nothing. Insert ab
mapped to 1 (root counter 1), then delete the absent key ay: the walk
decrements the root counter to 0 and pushes the root before it descends into
the int value of the mismatching leaf, whose subscripting raises TypeError;
the delete fails, yet the root counter now reads 0 while the stored leaf and
the global counter are untouched. -/
theorem claim10_failed_delete_mutates :
    trieSet 9 emptyTrie kAb 1 = some c10sVal ∧
    c10sVal.table.count = 1 ∧
    trieDelete 9 c10sVal kAy = some (some .typeError, c10afterVal) ∧
    c10afterVal.table.count = 0 ∧
    c10afterVal.table.slots.getD 19 none = some (.leaf kAb 1) := by
  exact ⟨rfl, rfl, rfl, rfl, rfl⟩

/-- Unfolding equation of the insertion loop for positive fuel. -/
theorem insertLoop_succ (n : Nat) (t : TNode) (key : Key) (v level : Nat) :
    insertLoop (n + 1) t key v level =
      match t.slots.getD (hashAt key level) none with
      | none => some (.mk (t.slots.set (hashAt key level) (some (.leaf key v))) (t.count + 1))
      | some s =>
        match insertLoop n (splitSub s level) key v (level + 1) with
        | none => none
        | some sub2 =>
          some (.mk (t.slots.set (hashAt key level)
            (some (.child (splitPfx s key level) sub2))) (t.count + 1)) := rfl

/-- One step of the insertion loop diverges when the occupied slot it meets
leads to a diverging recursive call. -/
theorem insertLoop_succ_none (n : Nat) (t : TNode) (key : Key) (v level : Nat) (s : TSlot)
    (hs : t.slots.getD (hashAt key level) none = some s)
    (hrec : insertLoop n (splitSub s level) key v (level + 1) = none) :
    insertLoop (n + 1) t key v level = none := by
  rw [insertLoop_succ, hs]
  dsimp only
  rw [hrec]

/-- The self-similar divergence of a duplicate insertion: at every level at
least 1 the key a hashes to the reserved slot 26, meets its own old leaf
there, splits it into a fresh node of the very same shape and descends, so
no amount of fuel finishes the loop. -/
theorem c3chain_loop : ∀ fuel level, insertLoop fuel c3chain kA 2 (level + 1) = none := by
  intro fuel
  induction fuel with
  | zero => intro _; rfl
  | succ n ih =>
    intro level
    have hlen : ¬(level + 1 < kA.length) := by
      simp only [kA, List.length_cons, List.length_nil]
      omega
    have hpos : hashAt kA (level + 1) = 26 := by
      unfold hashAt
      rw [if_neg hlen]
      rfl
    have hlen2 : ¬(level + 1 + 1 < kA.length) := by
      simp only [kA, List.length_cons, List.length_nil]
      omega
    have hpos2 : hashAt kA (level + 1 + 1) = 26 := by
      unfold hashAt
      rw [if_neg hlen2]
      rfl
    have hsub : splitSub (.leaf kA 1) (level + 1) = c3chain := by
      show TNode.mk ((List.replicate TABLE_SIZE none).set (hashAt kA (level + 1 + 1))
        (some (.leaf kA 1))) 1 = c3chain
      rw [hpos2]
      rfl
    apply insertLoop_succ_none (s := .leaf kA 1)
    · rw [hpos]
      rfl
    · rw [hsub]
      exact ih (level + 1)

/-- C3: the claim states that setting an already present key terminates and
overwrites. Insert a mapped to 1; the second insertion of a (mapped to 2)
never terminates: the insertion loop has no key-equality check, so it meets
the old leaf for a, splits it into a child holding that leaf at the reserved
slot 26, descends, meets it again at slot 26, and repeats forever — for
every fuel bound the loop is still running. -/
theorem claim3_duplicate_set_diverges :
    trieSet 9 emptyTrie kA 1 = some c3s ∧ ∀ fuel, trieSet fuel c3s kA 2 = none := by
  constructor
  · rfl
  · intro fuel
    cases fuel with
    | zero => rfl
    | succ n =>
      have h : insertLoop (n + 1) c3s.table kA 2 0 = none := by
        apply insertLoop_succ_none (s := .leaf kA 1)
        · rfl
        · have hsub : splitSub (.leaf kA 1) 0 = c3chain := rfl
          rw [hsub]
          exact c3chain_loop n 0
      unfold trieSet
      rw [h]

/-- C7, amended claim: Scenario B holds in full (first block), and the
collapse loop does relocate the remaining item into every popped ancestor
whose counter is 1, propagating upward (second block): whenever the cleared
node has counter 1 and every stacked ancestor has counter 1, the loop
terminates without an exception and each ancestor receives the item at the
hash of the item key for its level, on top of its re-wrapped child slot. -/
theorem claim7_collapse_relocates :
    ((sB2.bind (fun s => trieGet 9 s kLin) = some (.ok (.valC 1))) ∧
     (sB2.bind (fun s => trieGet 9 s kLim) = some (.ok (.valC 2))) ∧
     sBdel = some (none, sBdelVal) ∧
     sBdelVal.table.slots.getD 4 none = some (.leaf kLim 2) ∧
     (sBdel.bind (fun p => trieGet 9 p.2 kLim) = some (.ok (.valC 2)))) ∧
    ∀ frames cur it, cur.count = 1 → (∀ f ∈ frames, f.cnt = 1) →
      collapseLoop frames cur (some it) = (none, collapsedRoot frames it cur) := by
  refine ⟨⟨rfl, rfl, rfl, rfl, rfl⟩, ?_⟩
  intro frames
  induction frames with
  | nil => intro cur it _ _; rfl
  | cons f rest ih =>
    intro cur it h1 hall
    rw [collapseLoop, if_pos h1]
    rw [ih (TNode.mk ((f.slots.set f.pos (some (.child f.pfx cur))).set
          (hashAt (slotFst it) f.level) (some it)) f.cnt) it
        (hall f (by simp)) (fun g hg => hall g (by simp [hg]))]
    rfl

/-- Witness for the collapse relocation: a concrete one-frame stack with an
empty parent of counter 1 and a child of counter 1 holding one leaf. -/
theorem claim7_collapse_witness :
    curEx.count = 1 ∧
    collapseLoop [frameEx] curEx (some itEx) = (none, collapsedRoot [frameEx] itEx curEx) := by
  refine ⟨rfl, claim7_collapse_relocates.2 [frameEx] curEx itEx rfl ?_⟩
  intro f hf
  rw [List.mem_singleton] at hf
  subst hf
  rfl

/-- C7, counterexample: insert lin, lim, li, la, then delete li. The delete
completes without an exception — its walk stops at the depth-1 slot whose
prefix tag equals li, clearing the whole subtree holding lin, lim and li —
and it leaves the depth-1 node with exactly one (key, value) leaf beneath it
(the leaf for la) while the root slot 4 still holds the internal child
pointer: the leaf is not relocated into the parent slot, so the claimed
relocation does not happen on every delete that leaves a single leaf under
an internal node. -/
theorem claim7_cex_leaf_not_relocated :
    sC7del.map (fun p => p.1) = some none ∧
    sC7del.map (fun p =>
      match p.2.table.slots.getD 4 none with
      | some (.child _ t) => some (nodeEntries t, occupiedSlots t, t.count)
      | _ => none) = some (some (1, 1, 3)) := by
  exact ⟨rfl, rfl⟩

/-- Unfolding of slotsEntries on a cons cell. -/
theorem slotsEntries_cons (s : Option TSlot) (rest : List (Option TSlot)) :
    slotsEntries (s :: rest) = slotEntriesOne s + slotsEntries rest := rfl

/-- Unfolding of slotsInv on a cons cell. -/
theorem slotsInv_cons (s : Option TSlot) (rest : List (Option TSlot)) :
    slotsInv (s :: rest) = (slotInvOne s && slotsInv rest) := rfl

/-- Unfolding of nodeInv on a node. -/
theorem nodeInv_mk (slots : List (Option TSlot)) (c : Nat) :
    nodeInv (.mk slots c) =
      ((slots.length == TABLE_SIZE) && (c == slotsEntries slots) && slotsInv slots) := rfl

/-- Entry count after overwriting one in-range slot. -/
theorem slotsEntries_set : ∀ (l : List (Option TSlot)) (pos : Nat) (x : Option TSlot),
    pos < l.length →
    slotsEntries (l.set pos x) + slotEntriesOne (l.getD pos none)
      = slotsEntries l + slotEntriesOne x := by
  intro l
  induction l with
  | nil => intro pos x h; simp at h
  | cons sh rest ih =>
    intro pos x h
    cases pos with
    | zero =>
      simp only [List.set, List.getD_cons_zero, slotsEntries_cons]
      omega
    | succ m =>
      simp only [List.set, List.getD_cons_succ, slotsEntries_cons]
      have hm : m < rest.length := by
        simp only [List.length_cons] at h
        omega
      have := ih m x hm
      omega

/-- slotsInv is preserved by overwriting a slot with an invariant one. -/
theorem slotsInv_set : ∀ (l : List (Option TSlot)) (pos : Nat) (x : Option TSlot),
    slotsInv l = true → slotInvOne x = true → slotsInv (l.set pos x) = true := by
  intro l
  induction l with
  | nil => intro pos x h _; simpa [List.set] using h
  | cons sh rest ih =>
    intro pos x h hx
    rw [slotsInv_cons, Bool.and_eq_true] at h
    cases pos with
    | zero =>
      simp only [List.set, slotsInv_cons, Bool.and_eq_true]
      exact ⟨hx, h.2⟩
    | succ m =>
      simp only [List.set, slotsInv_cons, Bool.and_eq_true]
      exact ⟨h.1, ih m x h.2 hx⟩

/-- Every slot read out of an invariant slot list is invariant. -/
theorem slotsInv_getD : ∀ (l : List (Option TSlot)) (pos : Nat),
    slotsInv l = true → slotInvOne (l.getD pos none) = true := by
  intro l
  induction l with
  | nil => intro pos _; rfl
  | cons sh rest ih =>
    intro pos h
    rw [slotsInv_cons, Bool.and_eq_true] at h
    cases pos with
    | zero => simpa [List.getD_cons_zero] using h.1
    | succ m => simpa [List.getD_cons_succ] using ih m h.2

/-- A replicated empty slot list stores no entries. -/
theorem slotsEntries_replicate : ∀ n : Nat, slotsEntries (List.replicate n none) = 0 := by
  intro n
  induction n with
  | zero => rfl
  | succ m ih =>
    rw [List.replicate_succ, slotsEntries_cons, ih]
    rfl

/-- A replicated empty slot list is invariant. -/
theorem slotsInv_replicate : ∀ n : Nat, slotsInv (List.replicate n none) = true := by
  intro n
  induction n with
  | zero => rfl
  | succ m ih =>
    rw [List.replicate_succ, slotsInv_cons, ih]
    rfl

/-- Reading any position of a replicated empty slot list yields none. -/
theorem getD_replicate : ∀ (n i : Nat), (List.replicate n (none : Option TSlot)).getD i none = none := by
  intro n
  induction n with
  | zero => intro i; rfl
  | succ m ih =>
    intro i
    cases i with
    | zero => rfl
    | succ j =>
      rw [List.replicate_succ, List.getD_cons_succ]
      exact ih j

/-- The hash of the trie table always lands inside the node array. -/
theorem hashAt_lt (k : Key) (l : Nat) : hashAt k l < TABLE_SIZE := by
  unfold hashAt TABLE_SIZE
  split
  · have h := Nat.mod_lt (k.getD l 0) (show 0 < 27 - 1 by omega)
    omega
  · omega

/-- Projection of the slots of a built node. -/
theorem slotsOfMk (sl : List (Option TSlot)) (c : Nat) : (TNode.mk sl c).slots = sl := rfl

/-- Projection of the count of a built node. -/
theorem countOfMk (sl : List (Option TSlot)) (c : Nat) : (TNode.mk sl c).count = c := rfl

/-- The node a splitting insertion descends into satisfies the invariant
whenever the slot it came from does. -/
theorem nodeInv_splitSub : ∀ (s : TSlot) (level : Nat),
    slotInvOne (some s) = true → nodeInv (splitSub s level) = true := by
  intro s level h
  cases s with
  | child p t => exact h
  | leaf k0 v0 =>
    rw [show splitSub (.leaf k0 v0) level
        = .mk ((List.replicate TABLE_SIZE none).set (hashAt k0 (level + 1))
            (some (.leaf k0 v0))) 1 from rfl]
    rw [nodeInv_mk, Bool.and_eq_true, Bool.and_eq_true]
    refine ⟨⟨?_, ?_⟩, ?_⟩
    · simp [List.length_set, List.length_replicate]
    · have hset := slotsEntries_set (List.replicate TABLE_SIZE none) (hashAt k0 (level + 1))
        (some (.leaf k0 v0)) (by simpa [List.length_replicate] using hashAt_lt k0 (level + 1))
      rw [getD_replicate, slotsEntries_replicate,
          show slotEntriesOne none = 0 from rfl,
          show slotEntriesOne (some (.leaf k0 v0)) = 1 from rfl] at hset
      simp only [beq_iff_eq]
      omega
    · exact slotsInv_set _ _ _ (slotsInv_replicate TABLE_SIZE) rfl

/-- The subtree the insertion descends into holds exactly the entries of the
slot it replaces. -/
theorem entries_splitSub : ∀ (s : TSlot) (level : Nat),
    nodeEntries (splitSub s level) = slotEntriesOne (some s) := by
  intro s level
  cases s with
  | child p t => rfl
  | leaf k0 v0 =>
    show slotsEntries ((List.replicate TABLE_SIZE none).set (hashAt k0 (level + 1))
      (some (.leaf k0 v0))) = 1
    have hset := slotsEntries_set (List.replicate TABLE_SIZE none) (hashAt k0 (level + 1))
      (some (.leaf k0 v0)) (by simpa [List.length_replicate] using hashAt_lt k0 (level + 1))
    rw [getD_replicate, slotsEntries_replicate,
        show slotEntriesOne none = 0 from rfl,
        show slotEntriesOne (some (.leaf k0 v0)) = 1 from rfl] at hset
    omega

/-- The insertion step on an empty slot writes the new leaf there. -/
theorem insertLoop_succ_empty (n : Nat) (t : TNode) (key : Key) (v level : Nat)
    (hs : t.slots.getD (hashAt key level) none = none) :
    insertLoop (n + 1) t key v level
      = some (.mk (t.slots.set (hashAt key level) (some (.leaf key v))) (t.count + 1)) := by
  rw [insertLoop_succ, hs]

/-- The insertion step on an occupied slot recurses into the subtree. -/
theorem insertLoop_succ_occ (n : Nat) (t : TNode) (key : Key) (v level : Nat) (s : TSlot)
    (hs : t.slots.getD (hashAt key level) none = some s) :
    insertLoop (n + 1) t key v level
      = match insertLoop n (splitSub s level) key v (level + 1) with
        | none => none
        | some sub2 => some (.mk (t.slots.set (hashAt key level)
            (some (.child (splitPfx s key level) sub2))) (t.count + 1)) := by
  rw [insertLoop_succ, hs]

/-- A completed pass of the insertion loop preserves the counter invariant
and adds exactly one entry to the subtree it rebuilt. -/
theorem insertLoop_inv : ∀ (fuel level : Nat) (t : TNode) (key : Key) (v : Nat) (t2 : TNode),
    insertLoop fuel t key v level = some t2 → nodeInv t = true →
    nodeInv t2 = true ∧ nodeEntries t2 = nodeEntries t + 1 := by
  intro fuel
  induction fuel with
  | zero => intro level t key v t2 h _; exact absurd h (by simp [insertLoop])
  | succ n ih =>
    intro level t key v t2 h hinv
    obtain ⟨slots, c⟩ := t
    rw [nodeInv_mk, Bool.and_eq_true, Bool.and_eq_true] at hinv
    obtain ⟨⟨hlen, hcount⟩, hsinv⟩ := hinv
    rw [beq_iff_eq] at hlen hcount
    have hposlt : hashAt key level < slots.length := by
      rw [hlen]; exact hashAt_lt key level
    cases hslot : slots.getD (hashAt key level) none with
    | none =>
      rw [insertLoop_succ_empty n (TNode.mk slots c) key v level hslot] at h
      rw [slotsOfMk, countOfMk] at h
      simp only [Option.some.injEq] at h
      subst h
      have hset := slotsEntries_set slots (hashAt key level)
        (some (.leaf key v)) hposlt
      rw [hslot] at hset
      have h1 : slotEntriesOne none = 0 := rfl
      have h2 : slotEntriesOne (some (.leaf key v)) = 1 := rfl
      rw [h1, h2] at hset
      constructor
      · rw [nodeInv_mk, Bool.and_eq_true, Bool.and_eq_true]
        refine ⟨⟨?_, ?_⟩, ?_⟩
        · simp [List.length_set, hlen]
        · rw [beq_iff_eq]
          omega
        · exact slotsInv_set _ _ _ hsinv rfl
      · show slotsEntries (slots.set (hashAt key level) (some (.leaf key v)))
          = slotsEntries slots + 1
        omega
    | some s =>
      rw [insertLoop_succ_occ n (TNode.mk slots c) key v level s hslot] at h
      rw [slotsOfMk, countOfMk] at h
      cases hrec : insertLoop n (splitSub s level) key v (level + 1) with
      | none => rw [hrec] at h; simp at h
      | some sub2 =>
        rw [hrec] at h
        simp only [Option.some.injEq] at h
        subst h
        have hsofs : slotInvOne (slots.getD (hashAt key level) none) = true :=
          slotsInv_getD slots (hashAt key level) hsinv
        rw [hslot] at hsofs
        obtain ⟨hsub2inv, hsub2ent⟩ := ih (level + 1) (splitSub s level) key v sub2 hrec
          (nodeInv_splitSub s level hsofs)
        have hset := slotsEntries_set slots (hashAt key level)
          (some (.child (splitPfx s key level) sub2)) hposlt
        rw [hslot] at hset
        have hch : slotEntriesOne (some (.child (splitPfx s key level) sub2))
            = nodeEntries sub2 := rfl
        have hes : nodeEntries (splitSub s level) = slotEntriesOne (some s) :=
          entries_splitSub s level
        rw [hch] at hset
        rw [← hes] at hset
        constructor
        · rw [nodeInv_mk, Bool.and_eq_true, Bool.and_eq_true]
          refine ⟨⟨?_, ?_⟩, ?_⟩
          · simp [List.length_set, hlen]
          · rw [beq_iff_eq]
            omega
          · refine slotsInv_set _ _ _ hsinv ?_
            show nodeInv sub2 = true
            exact hsub2inv
        · show slotsEntries (slots.set (hashAt key level)
            (some (.child (splitPfx s key level) sub2))) = slotsEntries slots + 1
          omega

/-- A completed setitem yields a completed insertion loop on the root. -/
theorem trieSet_some (fuel : Nat) (st : TrieState) (key : Key) (v : Nat) (s2 : TrieState)
    (h : trieSet fuel st key v = some s2) : insertLoop fuel st.table key v 0 = some s2.table := by
  unfold trieSet at h
  cases hloop : insertLoop fuel st.table key v 0 with
  | none => rw [hloop] at h; simp at h
  | some root =>
    rw [hloop] at h
    simp only [Option.some.injEq] at h
    subst h
    rfl

/-- The counter invariant is preserved along any completed insertion
sequence. -/
theorem runSets_inv : ∀ (ops : List (Key × Nat)) (fuel : Nat) (s0 s : TrieState),
    runSets fuel ops s0 = some s → nodeInv s0.table = true → nodeInv s.table = true := by
  intro ops
  induction ops with
  | nil =>
    intro fuel s0 s h h0
    simp only [runSets, Option.some.injEq] at h
    subst h
    exact h0
  | cons p rest ih =>
    intro fuel s0 s h h0
    rw [show runSets fuel (p :: rest) s0
        = (match trieSet fuel s0 p.1 p.2 with
           | none => none
           | some s2 => runSets fuel rest s2) from rfl] at h
    cases htr : trieSet fuel s0 p.1 p.2 with
    | none => rw [htr] at h; simp at h
    | some s2 =>
      rw [htr] at h
      exact ih fuel s2 s h
        (insertLoop_inv fuel 0 s0.table p.1 p.2 s2.table (trieSet_some fuel s0 p.1 p.2 s2 htr) h0).1

/-- C9, amended claim: after every sequence of completed sets from the empty
table, each node of the trie is a TABLE_SIZE array whose occupancy counter
equals the number of key-value entries in that node's entire subtree — not
the number of its non-empty slots: the counter is incremented once per
insertion passing through the node. -/
theorem claim9_counter_is_subtree_entries (fuel : Nat) (ops : List (Key × Nat)) (s : TrieState)
    (h : runSets fuel ops emptyTrie = some s) : nodeInv s.table = true :=
  runSets_inv ops fuel emptyTrie s h rfl

/-- Witness for the amended C9 on the two sets of Scenario B: they complete
and the resulting counters all equal the subtree entry counts. -/
theorem claim9_counter_witness :
    runSets 9 [(kLin, 1), (kLim, 2)] emptyTrie = some sB2val ∧ nodeInv sB2val.table = true :=
  ⟨rfl, claim9_counter_is_subtree_entries 9 [(kLin, 1), (kLim, 2)] sB2val rfl⟩

/-- C9, counterexample: after the two completed sets of Scenario B the root
counter reads 2 although the root has exactly one non-empty slot (the count
of a node is incremented once per insertion passing through it, so it tracks
the entries beneath the node, not its occupied slots), refuting the claimed
equality between each node counter and its number of non-empty slots. -/
theorem claim9_cex_counter_not_slots :
    sB2 = some sB2val ∧
    sB2val.table.count = 2 ∧
    occupiedSlots sB2val.table = 1 := by
  exact ⟨rfl, rfl, rfl⟩

end MountainClimber
